import Mathlib

/-!
Verification of the `memfill` memory-pressure generator (steadybit/memfill).

This file gives a shallow embedding of the pure control logic of
`src/main.rs` and `src/cgroup.rs` into Lean, and proves the frozen claims
about it.

Modelling conventions, used throughout:

* Rust `usize` values are `Nat`; where an unchecked `usize` subtraction can
  underflow, the wraparound modulo `2 ^ 64` of release builds is made
  explicit (`USIZE`).  Rust `i64` values are `Int`; every `i64` division in
  the source is applied to nonnegative operands, where Lean's `Int`
  division (`/`, Euclidean) agrees with Rust's truncating division.
* `Instant` timestamps are `Nat`s (milliseconds on a monotonic clock);
  `Instant` subtraction `now - earlier` is `Nat` subtraction, meaningful
  because the real clock guarantees `earlier ≤ now`.
  `Duration::from_secs(1)` is `oneSec`.
* Effects of the OS are passed in as explicit oracles:
  `fork : Nat → Int` gives the pid returned by the `i`-th `fork` of an
  adjustment (`0`, the sentinel `PID_ZERO`, encodes the failure paths of
  `Chunk::new` — fork error, or the child never observed sleeping — both of
  which return an inert chunk);
  `died : Int → Bool` tells which live children a non-blocking
  `waitpid(WNOHANG)` reaps (exited, signalled, `ECHILD` or another wait
  error: all of them set `pid = PID_ZERO` in the source).
* The `Vec<Chunk>` of the pool is represented with the MOST RECENTLY pushed
  chunk first: Rust `Vec::push` is `List.cons`, `Vec::pop` takes the head.
-/

namespace Memfill

/-- Model of `const MB: i64 = 1024 * 1024` from `src/main.rs`. -/
def MB : Int := 1024 * 1024

/-- One second of the rate-limit window, in model milliseconds
(`Duration::from_secs(1)`). -/
def oneSec : Nat := 1000

/-- One past the largest `usize` value; unchecked `usize` arithmetic wraps
modulo this constant in release builds. -/
def USIZE : Nat := 2 ^ 64

/-- Model of `struct MemInfo { available: usize, total: usize }`. -/
structure MemInfo where
  available : Nat
  total : Nat
deriving DecidableEq, Repr

/-- Model of `struct CGroupMemory` from `src/cgroup.rs`: one reading of the
cgroup memory accounting. -/
structure CGroupMemory where
  usage : Nat
  limit : Nat
  unlimited : Bool
deriving DecidableEq, Repr

/-- Model of `CgroupMemInfo::mem_info` (`src/main.rs` lines 96-107), with
the reading of the cgroup files and of the system meminfo passed in as
values.  The source computes `total - mem_cgroup.usage` on `usize` without
a saturation or a check; the wraparound of release builds is explicit
here. -/
def CgroupMemInfo.mem_info (mem_cgroup : CGroupMemory) (system_total : Nat) : MemInfo :=
  let total : Nat := if mem_cgroup.unlimited then system_total else mem_cgroup.limit
  let available : Nat := (((total : Int) - (mem_cgroup.usage : Int)) % (USIZE : Int)).toNat
  { available := available, total := total }

/-- Model of `struct Chunk { size: usize, pid: Pid }`.  `pid = 0` is the
sentinel `PID_ZERO`. -/
structure Chunk where
  size : Nat
  pid : Int
deriving DecidableEq, Repr

/-- Model of `Chunk::new` (`src/main.rs` lines 256-312).  `fork` is the pid
the parent obtains, with `0` encoding every failure path (fork error, or
the child not reaching the sleeping state before the deadline), on which
the source returns `Self { size: 0, pid: PID_ZERO }`.  For `size = 0` the
source returns an inert chunk before forking. -/
def Chunk.new (size : Nat) (fork : Int) : Chunk :=
  if size = 0 then { size := size, pid := 0 }
  else if fork = 0 then { size := 0, pid := 0 }
  else { size := size, pid := fork }

/-- Model of `Chunk::size` (`src/main.rs` lines 314-320): the configured
size if the child is live, else 0.  (Named `liveSize` because the `size`
field already takes the Rust field's name.) -/
def Chunk.liveSize (c : Chunk) : Nat :=
  if c.pid = 0 then 0 else c.size

/-- Model of the returned value of `Chunk::free` (`src/main.rs` lines
345-353): the freed size — `self.size` when live, 0 when inert.  (The
chunk itself is popped by the caller and dropped.) -/
def Chunk.free (c : Chunk) : Nat :=
  if c.pid = 0 then 0 else c.size

/-- Model of `Chunk::check` (`src/main.rs` lines 322-343): a non-blocking
reap; the `died` oracle tells whether `waitpid(WNOHANG)` reported the child
gone (exit, signal, `ECHILD`, or another error), in which case the pid is
set to the sentinel.  On a still-sleeping child (`WaitStatus::StillAlive`)
nothing changes; on an inert chunk the reap is modelled as a no-op. -/
def Chunk.check (c : Chunk) (died : Int → Bool) : Chunk :=
  if c.pid ≠ 0 ∧ died c.pid then { c with pid := 0 } else c

/-- Model of `struct Chunks { chunks: Vec<Chunk>, last_allocation: Instant }`.
The head of `chunks` is the most recently pushed chunk. -/
structure Chunks where
  chunks : List Chunk
  last_allocation : Nat
deriving DecidableEq, Repr

/-- Model of `Chunks::new` (`src/main.rs` lines 201-203): empty pool,
`last_allocation` initialised to `Instant::now()`. -/
def Chunks.new (now : Nat) : Chunks :=
  { chunks := [], last_allocation := now }

/-- Model of `Chunks::size` (`src/main.rs` lines 205-207): sum of
`Chunk::size()` over the pool. -/
def Chunks.size (p : Chunks) : Nat :=
  (p.chunks.map Chunk.liveSize).sum

/-- Model of `Chunks::check` (`src/main.rs` lines 209-211): reap each chunk
non-blockingly. -/
def Chunks.check (p : Chunks) (died : Int → Bool) : Chunks :=
  { p with chunks := p.chunks.map (fun c => c.check died) }

/-- Model of the shrink loop of `Chunks::adjust_by` (`src/main.rs` lines
225-233): `while freed < need { match pop { None => break, Some(c) =>
freed += c.free() } }`, with `need = -size`.  Returns the remaining pool
and the accumulated `freed`. -/
def shrinkLoop (need : Int) : List Chunk → Int → List Chunk × Int
  | [], freed => ([], freed)
  | c :: rest, freed =>
    if freed < need then shrinkLoop need rest (freed + (c.free : Int))
    else (c :: rest, freed)

/-- Model of the grow loop of `Chunks::adjust_by` (`src/main.rs` lines
237-239): `for _i in 0..count { push(Chunk::new(sz)) }`.  Iteration `i`
consults `fork i`; with the most-recent-first representation each push is a
cons, so the chunk of the last iteration ends up at the head. -/
def pushN (sz : Nat) (fork : Nat → Int) : Nat → List Chunk → List Chunk
  | 0, l => l
  | k + 1, l => Chunk.new sz (fork k) :: pushN sz fork k l

/-- Model of the body of `Chunks::adjust_by` after the rate-limit guard
(`src/main.rs` lines 223-240): update the timestamp, run the shrink loop,
then if the residual `allocate = freed + size` is positive partition it
into `count` chunks of `allocate / count` bytes and push them. -/
def Chunks.adjustBody (p : Chunks) (now : Nat) (size : Int) (fork : Nat → Int) : Chunks :=
  let s := shrinkLoop (-size) p.chunks 0
  let allocate : Int := s.2 + size
  let chunks :=
    if allocate > 0 then
      let count : Int := if allocate < 16 * MB then 1 else max 2 (allocate / (1024 * MB))
      pushN (allocate / count).toNat fork count.toNat s.1
    else s.1
  { chunks := chunks, last_allocation := now }

/-- Model of `Chunks::adjust_by` (`src/main.rs` lines 218-241):
`if now - last_allocation < 1s && size < 2*MB { return }` then the body. -/
def Chunks.adjustBy (p : Chunks) (now : Nat) (size : Int) (fork : Nat → Int) : Chunks :=
  if now - p.last_allocation < oneSec ∧ size < 2 * MB then p
  else p.adjustBody now size fork

/-- Model of `Chunks::resize` (`src/main.rs` lines 213-216):
`adjust_by(target - total_size)`. -/
def Chunks.resize (p : Chunks) (size : Nat) (now : Nat) (fork : Nat → Int) : Chunks :=
  p.adjustBy now ((size : Int) - (p.size : Int)) fork

/-- Model of `struct UsageAllocator` (`src/main.rs` lines 155-159): the
stored availability floor (`available_bytes: i64`, signed) and the pool.
The memory-info provider is passed to `update` as a snapshot value. -/
structure UsageAllocator where
  available_bytes : Int
  chunks : Chunks
deriving DecidableEq, Repr

/-- Model of `UsageAllocator::new` for a byte-denominated size
(`src/main.rs` lines 162-178, `Size::Bytes` arm):
`available_bytes = mem.total as i64 - bytes as i64`.  (The `Size::Percent`
arm converts the percentage to a byte count through `f64` arithmetic and is
outside this embedding.) -/
def UsageAllocator.new (mem : MemInfo) (fill : Nat) (now : Nat) : UsageAllocator :=
  { available_bytes := (mem.total : Int) - (fill : Int), chunks := Chunks.new now }

/-- Model of `UsageAllocator::update` (`src/main.rs` lines
182-187): take a fresh snapshot `mem`, compute
`diff = mem.available as i64 - self.available_bytes`, reap, then
`adjust_by(diff)`. -/
def UsageAllocator.update (a : UsageAllocator) (mem : MemInfo) (now : Nat)
    (died : Int → Bool) (fork : Nat → Int) : UsageAllocator :=
  let diff : Int := (mem.available : Int) - a.available_bytes
  { a with chunks := (a.chunks.check died).adjustBy now diff fork }

/-- Model of the error type `CGroupError` of `src/cgroup.rs` (payloads
reduced to the offending path). -/
inductive CGroupError where
  | File : List String → CGroupError
  | Parse : List String → CGroupError
  | CgroupControllerNotFound : CGroupError
deriving DecidableEq, Repr

/-- A read-only view of the filesystem: the contents of each regular file,
addressed by its component path from the root (`/a/b` is `["a", "b"]`).
`none` means the file does not exist or cannot be read. -/
structure FS where
  files : List String → Option String

deriving instance DecidableEq for Except

/-- Model of Rust `str::trim`: drop whitespace characters from both ends.
(Implemented over the character list, rather than with the byte-position
based `String.trim` of the Lean library, so that concrete file contents
evaluate by kernel reduction.) -/
def rustTrim (s : String) : String :=
  String.mk (((s.data.dropWhile Char.isWhitespace).reverse.dropWhile Char.isWhitespace).reverse)

/-- Accumulator loop of `parseUsize`: most significant digit first; any
non-digit character fails the parse. -/
def parseNatAux : List Char → Nat → Option Nat
  | [], acc => some acc
  | c :: rest, acc =>
    if c.isDigit then parseNatAux rest (acc * 10 + (c.toNat - 48)) else none

/-- Model of Rust `str::parse` to `usize` applied to an already trimmed
line: an optional leading `+`, then at least one ASCII digit, rejecting
values outside `usize` range. -/
def parseUsize (s : String) : Option Nat :=
  let cs := match s.data with
    | '+' :: rest => rest
    | l => l
  match cs with
  | [] => none
  | _ =>
    match parseNatAux cs 0 with
    | some n => if n < USIZE then some n else none
    | none => none

/-- Model of `read_file_usize` (`src/cgroup.rs` lines 98-106): read the
file; a line trimming to the literal `max` yields `(0, true)`; otherwise
parse the trimmed line as a `usize`, yielding `(value, false)` or a
`Parse` error. -/
def read_file_usize (fs : FS) (path : List String) : Except CGroupError (Nat × Bool) :=
  match fs.files path with
  | none => Except.error (CGroupError.File path)
  | some line =>
    if rustTrim line = "max" then Except.ok (0, true)
    else
      match parseUsize (rustTrim line) with
      | some i => Except.ok (i, false)
      | none => Except.error (CGroupError.Parse path)

/-- The existence test of the walk of `read_cgroup_v2_memory`
(`src/cgroup.rs` line 40): both `memory.max` and `memory.current` exist in
`dir`. -/
def hasBoth (fs : FS) (dir : List String) : Bool :=
  (fs.files (dir ++ ["memory.max"])).isSome && (fs.files (dir ++ ["memory.current"])).isSome

/-- The found-directory case of `read_cgroup_v2_memory` (`src/cgroup.rs`
lines 41-44): `(limit, unlimited)` from `memory.max`, `(usage, _)` from
`memory.current`, each `?`-propagating its error. -/
def readMemAt (fs : FS) (dir : List String) : Except CGroupError CGroupMemory :=
  match read_file_usize fs (dir ++ ["memory.max"]) with
  | Except.error e => Except.error e
  | Except.ok (limit, unlimited) =>
    match read_file_usize fs (dir ++ ["memory.current"]) with
    | Except.error e => Except.error e
    | Except.ok (usage, _) => Except.ok { usage := usage, limit := limit, unlimited := unlimited }

/-- The upward walk of `read_cgroup_v2_memory` (`src/cgroup.rs` lines
36-51): loop until both files exist, else step to `Path::parent`; the
parent of the filesystem root `[]` is `None`, on which the source returns
`CgroupControllerNotFound`.  (`Path::parent` of `/sys` is `/`, so the walk
continues through every ancestor up to the root.) -/
def walkUp (fs : FS) (p : List String) : Except CGroupError CGroupMemory :=
  if hasBoth fs p then readMemAt fs p
  else if h : p = [] then Except.error CGroupError.CgroupControllerNotFound
  else walkUp fs p.dropLast
termination_by p.length
decreasing_by
  simp only [List.length_dropLast]
  exact Nat.sub_lt (List.length_pos.mpr h) Nat.one_pos

/-- The components of `/sys/fs/cgroup`. -/
def cgroupRoot : List String := ["sys", "fs", "cgroup"]

/-- Model of `read_cgroup_v2_memory` (`src/cgroup.rs` lines 33-52).
`ctrl` is the relative controller path obtained from `/proc/self/cgroup`
(the line whose first field is `0`) with its leading `/` stripped; the walk
starts at its join to `/sys/fs/cgroup`. -/
def read_cgroup_v2_memory (fs : FS) (ctrl : List String) : Except CGroupError CGroupMemory :=
  walkUp fs (cgroupRoot ++ ctrl)

/-- The directories visited by the upward walk starting at `p`: `p`, its
parent, ..., down to the filesystem root `[]`.  (These are the prefixes of
`p`, longest first.) -/
def ancestors (p : List String) : List (List String) :=
  p.inits.reverse

/-- A small concrete filesystem used to witness the cgroup-v2 claims:
`/sys/fs/cgroup/a` holds `memory.max = "max"` and `memory.current = "100"`;
no other file exists. -/
def fsEx : FS :=
  { files := fun p =>
      if p = ["sys", "fs", "cgroup", "a", "memory.max"] then some "max"
      else if p = ["sys", "fs", "cgroup", "a", "memory.current"] then some "100"
      else none }

/-! Helper lemmas about the pool operations. -/

/-- When the rate-limit guard trips, `adjust_by` returns the pool
unchanged. -/
lemma adjustBy_of_guard (p : Chunks) (now : Nat) (d : Int) (fork : Nat → Int)
    (h : now - p.last_allocation < oneSec ∧ d < 2 * MB) :
    p.adjustBy now d fork = p := by
  simp [Chunks.adjustBy, h]

/-- When the rate-limit guard does not trip, `adjust_by` runs its body. -/
lemma adjustBy_of_not_guard (p : Chunks) (now : Nat) (d : Int) (fork : Nat → Int)
    (h : ¬(now - p.last_allocation < oneSec ∧ d < 2 * MB)) :
    p.adjustBy now d fork = p.adjustBody now d fork := by
  simp [Chunks.adjustBy, h]

/-- The body of `adjust_by` always stamps `last_allocation` with the call
instant. -/
lemma adjustBody_last_allocation (p : Chunks) (now : Nat) (d : Int) (fork : Nat → Int) :
    (p.adjustBody now d fork).last_allocation = now := rfl

/-- Any `adjust_by` call that changes the chunk sequence must have passed
the guard, hence stamped `last_allocation` with its call instant. -/
lemma last_allocation_of_chunks_changed (p : Chunks) (now : Nat) (d : Int) (fork : Nat → Int)
    (h : (p.adjustBy now d fork).chunks ≠ p.chunks) :
    (p.adjustBy now d fork).last_allocation = now := by
  by_cases hg : now - p.last_allocation < oneSec ∧ d < 2 * MB
  · rw [adjustBy_of_guard p now d fork hg] at h
    exact absurd rfl h
  · rw [adjustBy_of_not_guard p now d fork hg]
    rfl

/-- The grow loop pushes exactly `n` chunks. -/
lemma pushN_length (sz : Nat) (fork : Nat → Int) (n : Nat) (l : List Chunk) :
    (pushN sz fork n l).length = n + l.length := by
  induction n with
  | zero => simp [pushN]
  | succ k ih => simp [pushN, ih]; omega

/-- Every chunk in the result of the grow loop is either an old chunk or a
chunk freshly created with size `sz` and one of the fork results. -/
lemma mem_pushN (sz : Nat) (fork : Nat → Int) (n : Nat) (l : List Chunk) (c : Chunk)
    (h : c ∈ pushN sz fork n l) :
    c ∈ l ∨ ∃ i < n, c = Chunk.new sz (fork i) := by
  induction n with
  | zero => exact Or.inl h
  | succ k ih =>
    rcases List.mem_cons.mp h with h0 | h0
    · exact Or.inr ⟨k, Nat.lt_succ_self k, h0⟩
    · rcases ih h0 with hl | ⟨i, hi, hc⟩
      · exact Or.inl hl
      · exact Or.inr ⟨i, Nat.lt_succ_of_lt hi, hc⟩

/-- A freshly created chunk records the requested size whenever the fork
succeeded. -/
lemma Chunk.new_size (sz : Nat) (fk : Int) (h : fk ≠ 0) :
    (Chunk.new sz fk).size = sz := by
  unfold Chunk.new
  by_cases h0 : sz = 0 <;> simp [h0, h]

/-- The shrink loop does not run at all when the target is already met. -/
lemma shrinkLoop_of_le (need : Int) (l : List Chunk) (freed : Int) (h : need ≤ freed) :
    shrinkLoop need l freed = (l, freed) := by
  cases l with
  | nil => rfl
  | cons c rest => simp [shrinkLoop, not_lt.mpr h]

/-- The shrink loop only ever pops from the head (the most recently pushed
chunks): the remaining pool is a tail of the original, and the loop stops
exactly when the freed total reaches the target or the pool is exhausted. -/
lemma shrinkLoop_drop_stop (need : Int) (l : List Chunk) (freed : Int) :
    (∃ k, (shrinkLoop need l freed).1 = l.drop k) ∧
      (need ≤ (shrinkLoop need l freed).2 ∨ (shrinkLoop need l freed).1 = []) := by
  induction l generalizing freed with
  | nil =>
    exact ⟨⟨0, rfl⟩, Or.inr rfl⟩
  | cons c rest ih =>
    by_cases hf : freed < need
    · have hrw : shrinkLoop need (c :: rest) freed
          = shrinkLoop need rest (freed + (c.free : Int)) := by
        simp [shrinkLoop, hf]
      rw [hrw]
      rcases ih (freed + (c.free : Int)) with ⟨⟨k, hk⟩, hstop⟩
      exact ⟨⟨k + 1, by simpa using hk⟩, hstop⟩
    · have hrw : shrinkLoop need (c :: rest) freed = (c :: rest, freed) := by
        simp [shrinkLoop, hf]
      rw [hrw]
      exact ⟨⟨0, rfl⟩, Or.inl (not_lt.mp hf)⟩

/-- Running the shrink loop for a target of `j` chunk sizes over a pool of
`n` equal live chunks pops exactly the first `j` chunks. -/
lemma shrinkLoop_replicate (s : Nat) (pid : Int) (hs : 0 < s) (hpid : pid ≠ 0) :
    ∀ (j n : Nat) (freed : Int), j ≤ n →
      shrinkLoop (freed + (j : Int) * (s : Int))
          (List.replicate n { size := s, pid := pid }) freed
        = (List.replicate (n - j) { size := s, pid := pid }, freed + (j : Int) * (s : Int)) := by
  intro j
  induction j with
  | zero =>
    intro n freed _
    simp [shrinkLoop_of_le]
  | succ k ih =>
    intro n freed hn
    cases n with
    | zero => omega
    | succ m =>
      have hfree : (({ size := s, pid := pid } : Chunk).free : Int) = (s : Int) := by
        simp [Chunk.free, hpid]
      have hlt : freed < freed + ((k : Int) + 1) * (s : Int) := by
        have : (0 : Int) < ((k : Int) + 1) * (s : Int) := by positivity
        omega
      have hrw : shrinkLoop (freed + ((k + 1 : Nat) : Int) * (s : Int))
            (List.replicate (m + 1) { size := s, pid := pid }) freed
          = shrinkLoop (freed + ((k + 1 : Nat) : Int) * (s : Int))
              (List.replicate m { size := s, pid := pid }) (freed + (s : Int)) := by
        rw [List.replicate_succ]
        simp only [shrinkLoop, hfree]
        rw [if_pos (by push_cast; exact hlt)]
      rw [hrw]
      have harith : freed + ((k + 1 : Nat) : Int) * (s : Int)
          = (freed + (s : Int)) + (k : Int) * (s : Int) := by push_cast; ring
      rw [harith, ih m (freed + (s : Int)) (Nat.le_of_succ_le_succ hn)]
      have hmk : m - k = m + 1 - (k + 1) := by omega
      rw [hmk]

/-- For a pure grow request (positive residual, nothing to free) the body
reduces to pushing `count` chunks of `d / count` bytes. -/
lemma adjustBody_grow (p : Chunks) (now : Nat) (d : Int) (fork : Nat → Int) (hd : 0 < d) :
    ∃ count : Int, count = (if d < 16 * MB then 1 else max 2 (d / (1024 * MB))) ∧
      p.adjustBody now d fork =
        { chunks := pushN (d / count).toNat fork count.toNat p.chunks,
          last_allocation := now } := by
  refine ⟨if d < 16 * MB then 1 else max 2 (d / (1024 * MB)), rfl, ?_⟩
  have hs : shrinkLoop (-d) p.chunks 0 = (p.chunks, 0) :=
    shrinkLoop_of_le _ _ _ (by omega)
  simp only [Chunks.adjustBody, hs, zero_add, gt_iff_lt, hd, if_true]

/-! Helper lemmas about the cgroup-v2 walk. -/

/-- The walk starting at the filesystem root visits only the root. -/
lemma ancestors_nil : ancestors ([] : List String) = [[]] := rfl

/-- Unfolding the visited directories one parent step at a time. -/
lemma ancestors_concat (q : List String) (a : String) :
    ancestors (q ++ [a]) = (q ++ [a]) :: ancestors q := by
  simp [ancestors, List.inits_append]

/-- `read_file_usize` never produces the controller-not-found error: its
failures are `File` (unreadable) or `Parse` (malformed integer). -/
lemma read_file_usize_ne_notFound (fs : FS) (path : List String) :
    read_file_usize fs path ≠ Except.error CGroupError.CgroupControllerNotFound := by
  unfold read_file_usize
  split
  · simp
  · split
    · simp
    · split <;> simp

/-- Reading the pair of memory files of a directory never produces the
controller-not-found error. -/
lemma readMemAt_ne_notFound (fs : FS) (dir : List String) :
    readMemAt fs dir ≠ Except.error CGroupError.CgroupControllerNotFound := by
  unfold readMemAt
  cases hmax : read_file_usize fs (dir ++ ["memory.max"]) with
  | error e =>
    have he : e ≠ CGroupError.CgroupControllerNotFound := by
      intro he; exact read_file_usize_ne_notFound fs _ (by rw [hmax, he])
    simp [he]
  | ok v =>
    obtain ⟨limit, unlimited⟩ := v
    cases hcur : read_file_usize fs (dir ++ ["memory.current"]) with
    | error e =>
      have he : e ≠ CGroupError.CgroupControllerNotFound := by
        intro he; exact read_file_usize_ne_notFound fs _ (by rw [hcur, he])
      simp [he]
    | ok w =>
      obtain ⟨usage, b⟩ := w
      simp

/-- The upward walk reads the deepest visited directory holding both memory
files, and reports controller-not-found exactly when no visited directory
holds both. -/
lemma walkUp_eq_find (fs : FS) (p : List String) :
    walkUp fs p =
      (match (ancestors p).find? (fun d => hasBoth fs d) with
        | some d => readMemAt fs d
        | none => Except.error CGroupError.CgroupControllerNotFound) := by
  induction p using List.reverseRecOn with
  | nil =>
    rw [walkUp]
    by_cases hb : hasBoth fs []
    · simp [hb, ancestors_nil, List.find?]
    · simp [hb, ancestors_nil, List.find?]
  | append_singleton q a ih =>
    rw [walkUp, ancestors_concat]
    by_cases hb : hasBoth fs (q ++ [a])
    · simp [hb, List.find?]
    · have hne : q ++ [a] ≠ [] := by simp
      simp [hb, hne, List.dropLast_concat, ih, List.find?]

/-! The claims. -/

/-- Claim C8: a chunk's `size()` is the configured size when the child pid
is live and 0 when the pid is the sentinel; `Chunk::new(0)` returns an
inert chunk (sentinel pid, reported size 0) independently of any fork
outcome; and an inert chunk contributes exactly 0 to the pool's
`total_size()`. -/
theorem claim_C8 (c : Chunk) (l : List Chunk) (t : Nat) :
    (∀ fk : Int, Chunk.new 0 fk = { size := 0, pid := 0 }) ∧
    (c.pid ≠ 0 → c.liveSize = c.size) ∧
    (c.pid = 0 → c.liveSize = 0) ∧
    (c.pid = 0 →
      Chunks.size { chunks := c :: l, last_allocation := t }
        = Chunks.size { chunks := l, last_allocation := t }) := by
  refine ⟨fun fk => rfl, ?_, ?_, ?_⟩
  · intro h; simp [Chunk.liveSize, h]
  · intro h; simp [Chunk.liveSize, h]
  · intro h; simp [Chunks.size, Chunk.liveSize, h]

/-- Witness for C8 at concrete chunks. -/
theorem claim_C8_witness :
    (Chunk.new 0 5 = { size := 0, pid := 0 }) ∧
    (Chunk.liveSize { size := 7, pid := 3 } = 7) ∧
    (Chunk.liveSize { size := 7, pid := 0 } = 0) ∧
    (Chunks.size { chunks := [⟨7, 0⟩, ⟨2, 1⟩], last_allocation := 0 }
      = Chunks.size { chunks := [⟨2, 1⟩], last_allocation := 0 }) :=
  ⟨(claim_C8 { size := 7, pid := 3 } [] 0).1 5,
   (claim_C8 { size := 7, pid := 3 } [] 0).2.1 (by decide),
   (claim_C8 { size := 7, pid := 0 } [] 0).2.2.1 (by decide),
   (claim_C8 { size := 7, pid := 0 } [{ size := 2, pid := 1 }] 0).2.2.2 (by decide)⟩

/-- Claim C9: a fresh pool's rate-limit timestamp is the construction
instant, so any `adjust_by` with `delta < 2 MiB` issued less than one
second after `Chunks::new` is a no-op and the pool stays empty, even
though no prior adjustment ever occurred. -/
theorem claim_C9 (t0 now : Nat) (d : Int) (fork : Nat → Int)
    (h1 : now - t0 < oneSec) (h2 : d < 2 * MB) :
    (Chunks.new t0).last_allocation = t0 ∧
    (Chunks.new t0).adjustBy now d fork = Chunks.new t0 ∧
    ((Chunks.new t0).adjustBy now d fork).chunks = [] := by
  have hg := adjustBy_of_guard (Chunks.new t0) now d fork ⟨h1, h2⟩
  exact ⟨rfl, hg, by rw [hg]; rfl⟩

/-- Witness for C9: a 1 MiB request 500 ms after construction does
nothing. -/
theorem claim_C9_witness :
    (Chunks.new 0).last_allocation = 0 ∧
    (Chunks.new 0).adjustBy 500 MB (fun _ => 1) = Chunks.new 0 ∧
    ((Chunks.new 0).adjustBy 500 MB (fun _ => 1)).chunks = [] :=
  claim_C9 0 500 MB (fun _ => 1) (by decide) (by decide)

/-- Claim C10: the rate-limit guard compares the signed delta, not its
magnitude — `adjust_by` leaves the pool state completely unchanged exactly
when less than one second has elapsed and `delta < 2 MiB` as a signed
comparison; in particular every shrink request (`delta < 0`), however
large in magnitude, is suppressed inside the one-second window. -/
theorem claim_C10 (p : Chunks) (now : Nat) (d : Int) (fork : Nat → Int) :
    (p.adjustBy now d fork = p ↔
      (now - p.last_allocation < oneSec ∧ d < 2 * MB)) ∧
    (d < 0 → now - p.last_allocation < oneSec → p.adjustBy now d fork = p) := by
  constructor
  · constructor
    · intro he
      by_contra hg
      rw [adjustBy_of_not_guard p now d fork hg] at he
      by_cases ht : oneSec ≤ now - p.last_allocation
      · have h1 : (p.adjustBody now d fork).last_allocation = now := rfl
        rw [he] at h1
        simp only [oneSec] at ht
        omega
      · push_neg at hg
        have hd : 2 * MB ≤ d := hg (not_le.mp ht)
        have hdpos : 0 < d := by
          have : (0 : Int) < 2 * MB := by norm_num [MB]
          omega
        obtain ⟨count, hcount, hbody⟩ := adjustBody_grow p now d fork hdpos
        have hc1 : 1 ≤ count := by
          rw [hcount]
          split
          · exact le_refl 1
          · exact le_trans (by norm_num) (le_max_left 2 _)
        have hlen : (p.adjustBody now d fork).chunks.length
            = count.toNat + p.chunks.length := by
          rw [hbody]
          exact pushN_length _ _ _ _
        rw [he] at hlen
        omega
    · intro hg
      exact adjustBy_of_guard p now d fork hg
  · intro hd ht
    refine adjustBy_of_guard p now d fork ⟨ht, ?_⟩
    have : (0 : Int) < 2 * MB := by norm_num [MB]
    omega

/-- Witness for C10: a 5 MiB shrink request 500 ms after the last effectual
adjustment is suppressed. -/
theorem claim_C10_witness :
    (({ chunks := [], last_allocation := 0 } : Chunks).adjustBy 500 (-(5 * MB)) (fun _ => 1)
        = { chunks := [], last_allocation := 0 } ↔
      (500 - ({ chunks := [], last_allocation := 0 } : Chunks).last_allocation < oneSec ∧
        -(5 * MB) < 2 * MB)) ∧
    (-(5 * MB) < 0 →
      500 - ({ chunks := [], last_allocation := 0 } : Chunks).last_allocation < oneSec →
      ({ chunks := [], last_allocation := 0 } : Chunks).adjustBy 500 (-(5 * MB)) (fun _ => 1)
        = { chunks := [], last_allocation := 0 }) :=
  claim_C10 { chunks := [], last_allocation := 0 } 500 (-(5 * MB)) (fun _ => 1)

/-- Claim C3: if an `adjust_by` call actually changed the pool's chunk
sequence, a second `adjust_by` with magnitude below 2 MiB issued less than
one second later is a no-op: the chunk sequence and `total_size()` are
unchanged by it. -/
theorem claim_C3 (p : Chunks) (t1 t2 : Nat) (d1 d2 : Int) (f1 f2 : Nat → Int)
    (hchanged : (p.adjustBy t1 d1 f1).chunks ≠ p.chunks)
    (hgap : t2 - t1 < oneSec)
    (hlo : -(2 * MB) < d2) (hhi : d2 < 2 * MB) :
    (p.adjustBy t1 d1 f1).adjustBy t2 d2 f2 = p.adjustBy t1 d1 f1 ∧
    ((p.adjustBy t1 d1 f1).adjustBy t2 d2 f2).chunks = (p.adjustBy t1 d1 f1).chunks ∧
    ((p.adjustBy t1 d1 f1).adjustBy t2 d2 f2).size = (p.adjustBy t1 d1 f1).size := by
  have hl := last_allocation_of_chunks_changed p t1 d1 f1 hchanged
  have heq := adjustBy_of_guard (p.adjustBy t1 d1 f1) t2 d2 f2 ⟨by rw [hl]; exact hgap, hhi⟩
  exact ⟨heq, by rw [heq], by rw [heq]⟩

/-- Witness for C3: grow by 3 MiB at t=1000 ms (effectual), then a 0-byte
adjustment at t=1500 ms is a no-op. -/
theorem claim_C3_witness :
    ((Chunks.new 0).adjustBy 1000 (3 * MB) (fun _ => 1)).adjustBy 1500 0 (fun _ => 2)
        = (Chunks.new 0).adjustBy 1000 (3 * MB) (fun _ => 1) ∧
    (((Chunks.new 0).adjustBy 1000 (3 * MB) (fun _ => 1)).adjustBy 1500 0 (fun _ => 2)).chunks
        = ((Chunks.new 0).adjustBy 1000 (3 * MB) (fun _ => 1)).chunks ∧
    (((Chunks.new 0).adjustBy 1000 (3 * MB) (fun _ => 1)).adjustBy 1500 0 (fun _ => 2)).size
        = ((Chunks.new 0).adjustBy 1000 (3 * MB) (fun _ => 1)).size :=
  claim_C3 (Chunks.new 0) 1000 1500 (3 * MB) 0 (fun _ => 1) (fun _ => 2)
    (by decide) (by decide) (by decide) (by decide)

/-- Claim C6, counterexample: an `adjust_by(0)` issued after the one-second
window leaves the chunk sequence unchanged, yet the remembered timestamp IS
updated (the source stamps `last_allocation` whenever the guard permits
action, regardless of outcome), contradicting the claim that the timestamp
is not updated by calls that do not change the pool. -/
theorem claim_C6_counterexample :
    ((Chunks.new 0).adjustBy 1000 0 (fun _ => 1)).chunks = (Chunks.new 0).chunks ∧
    ((Chunks.new 0).adjustBy 1000 0 (fun _ => 1)).last_allocation
      ≠ (Chunks.new 0).last_allocation := by
  decide

/-- Claim C6, amended: the pool's rate-limit timestamp records the most
recent `adjust_by` call that passed the rate-limit guard — it is stamped
with the call instant whenever the guard permits action, regardless of
whether the chunk sequence changed, and is left untouched when the guard
returns early. -/
theorem claim_C6_amended (p : Chunks) (now : Nat) (d : Int) (fork : Nat → Int) :
    (now - p.last_allocation < oneSec ∧ d < 2 * MB → p.adjustBy now d fork = p) ∧
    (¬(now - p.last_allocation < oneSec ∧ d < 2 * MB) →
      (p.adjustBy now d fork).last_allocation = now) := by
  constructor
  · exact adjustBy_of_guard p now d fork
  · intro hg
    rw [adjustBy_of_not_guard p now d fork hg]
    rfl

/-- Witness for the amended C6: a guarded call keeps the pool (and its
timestamp); an unguarded ineffectual call restamps the timestamp. -/
theorem claim_C6_amended_witness :
    ((Chunks.new 0).adjustBy 500 0 (fun _ => 1) = Chunks.new 0) ∧
    (((Chunks.new 0).adjustBy 1000 0 (fun _ => 1)).last_allocation = 1000) :=
  ⟨(claim_C6_amended (Chunks.new 0) 500 0 (fun _ => 1)).1 (by decide),
   (claim_C6_amended (Chunks.new 0) 1000 0 (fun _ => 1)).2 (by decide)⟩

/-- Claim C2: growing an empty pool by `allocate > 0` past the guard pushes
exactly one chunk of size `allocate` when `allocate < 16 MiB`, and
otherwise `count = max(2, allocate / 1024 MiB)` chunks each of size
`allocate / count` (integer division, remainder discarded). -/
theorem claim_C2 (p : Chunks) (now : Nat) (delta : Int) (fork : Nat → Int)
    (hempty : p.chunks = [])
    (hguard : ¬(now - p.last_allocation < oneSec ∧ delta < 2 * MB))
    (hpos : 0 < delta) (hfork : ∀ i, fork i ≠ 0) :
    (delta < 16 * MB →
      (p.adjustBy now delta fork).chunks = [Chunk.new delta.toNat (fork 0)]) ∧
    (16 * MB ≤ delta →
      (p.adjustBy now delta fork).chunks.length = (max 2 (delta / (1024 * MB))).toNat ∧
      ∀ c ∈ (p.adjustBy now delta fork).chunks,
        c.size = (delta / max 2 (delta / (1024 * MB))).toNat) := by
  rw [adjustBy_of_not_guard p now delta fork hguard]
  obtain ⟨count, hcount, hbody⟩ := adjustBody_grow p now delta fork hpos
  rw [hbody]
  constructor
  · intro h16
    rw [if_pos h16] at hcount
    simp only [hcount, hempty, Int.ediv_one]
    rfl
  · intro h16
    rw [if_neg (not_lt.mpr h16)] at hcount
    subst hcount
    constructor
    · rw [pushN_length, hempty]
      simp
    · intro c hc
      rcases mem_pushN _ _ _ _ c hc with hl | ⟨i, _, hcnew⟩
      · rw [hempty] at hl
        exact absurd hl (List.not_mem_nil c)
      · rw [hcnew]
        exact Chunk.new_size _ _ (hfork i)

/-- Witness for C2: a 3 MiB grow gives one 3 MiB chunk; a 5 GiB grow gives
`max(2, 5) = 5` chunks of 1 GiB each. -/
theorem claim_C2_witness :
    (((Chunks.new 0).adjustBy 1000 (3 * MB) (fun _ => 1)).chunks
        = [Chunk.new (3 * MB).toNat 1]) ∧
    (((Chunks.new 0).adjustBy 1000 (5 * 1024 * MB) (fun _ => 1)).chunks.length
        = (max 2 (5 * 1024 * MB / (1024 * MB))).toNat ∧
      ∀ c ∈ ((Chunks.new 0).adjustBy 1000 (5 * 1024 * MB) (fun _ => 1)).chunks,
        c.size = (5 * 1024 * MB / max 2 (5 * 1024 * MB / (1024 * MB))).toNat) :=
  ⟨(claim_C2 (Chunks.new 0) 1000 (3 * MB) (fun _ => 1) rfl (by decide) (by decide)
      (fun _ => one_ne_zero)).1 (by decide),
   (claim_C2 (Chunks.new 0) 1000 (5 * 1024 * MB) (fun _ => 1) rfl (by decide) (by decide)
      (fun _ => one_ne_zero)).2 (by decide)⟩

/-- Claim C4: shrink frees chunks strictly in LIFO order — the loop pops
only the most recently pushed chunks (the remaining pool is a tail of the
original), stopping as soon as the freed total reaches `−delta` or the pool
is empty; in particular, a pool of `N` equal live chunks shrunk by
`K × chunk-size` loses exactly the last `K` chunks and no others. -/
theorem claim_C4 (p : Chunks) (now : Nat) (fork : Nat → Int) (N K s : Nat) (pid : Int)
    (hrep : p.chunks = List.replicate N { size := s, pid := pid })
    (hpid : pid ≠ 0) (hs : 0 < s) (hK : K ≤ N)
    (helapsed : oneSec ≤ now - p.last_allocation) :
    ((p.adjustBy now (-((K : Int) * (s : Int))) fork).chunks
        = List.replicate (N - K) { size := s, pid := pid }) ∧
    (∀ (need freed : Int) (l : List Chunk),
      (∃ k, (shrinkLoop need l freed).1 = l.drop k) ∧
      (need ≤ (shrinkLoop need l freed).2 ∨ (shrinkLoop need l freed).1 = [])) := by
  refine ⟨?_, fun need freed l => shrinkLoop_drop_stop need l freed⟩
  have hng : ¬(now - p.last_allocation < oneSec ∧ -((K : Int) * (s : Int)) < 2 * MB) := by
    intro hcontra
    exact absurd hcontra.1 (not_lt.mpr helapsed)
  rw [adjustBy_of_not_guard _ _ _ _ hng]
  have hsh := shrinkLoop_replicate s pid hs hpid K N 0 hK
  rw [zero_add] at hsh
  simp only [Chunks.adjustBody, hrep, neg_neg, hsh, add_neg_cancel, gt_iff_lt,
    lt_irrefl, if_false]

/-- Witness for C4: three live 5-byte chunks shrunk by 2 × 5 bytes keep
exactly the oldest one. -/
theorem claim_C4_witness :
    ((({ chunks := List.replicate 3 ⟨5, 1⟩, last_allocation := 0 } : Chunks).adjustBy
        1000 (-10) (fun _ => 1)).chunks = List.replicate 1 ⟨5, 1⟩) := by
  exact (claim_C4 { chunks := List.replicate 3 ⟨5, 1⟩, last_allocation := 0 } 1000
    (fun _ => 1) 3 2 5 1 rfl (by decide) (by decide) (by decide) (by decide)).1

/-- Claim C5: the usage strategy stores at construction the fixed signed
availability floor `total − fill` (negative when the requested fill exceeds
total), never changes it, and each `update()` takes a fresh snapshot,
computes `delta = snapshot.available − available_floor`, reaps the pool,
then calls `adjust_by(delta)`. -/
theorem claim_C5 (mem mem2 : MemInfo) (fill : Nat) (now now2 : Nat)
    (died : Int → Bool) (fork : Nat → Int) (a : UsageAllocator) :
    ((UsageAllocator.new mem fill now).available_bytes
        = (mem.total : Int) - (fill : Int)) ∧
    (mem.total < fill → (UsageAllocator.new mem fill now).available_bytes < 0) ∧
    ((a.update mem2 now2 died fork).available_bytes = a.available_bytes) ∧
    ((a.update mem2 now2 died fork).chunks
      = (a.chunks.check died).adjustBy now2 ((mem2.available : Int) - a.available_bytes) fork) := by
  refine ⟨rfl, ?_, rfl, rfl⟩
  intro h
  simp only [UsageAllocator.new]
  omega

/-- Witness for C5 at a concrete configuration with `fill > total` (negative
floor). -/
theorem claim_C5_witness :
    ((UsageAllocator.new ⟨10, 50⟩ 80 0).available_bytes = (50 : Int) - 80) ∧
    ((UsageAllocator.new ⟨10, 50⟩ 80 0).available_bytes < 0) ∧
    (((UsageAllocator.new ⟨10, 50⟩ 80 0).update ⟨30, 50⟩ 7 (fun _ => false)
        (fun _ => 1)).available_bytes = (UsageAllocator.new ⟨10, 50⟩ 80 0).available_bytes) ∧
    (((UsageAllocator.new ⟨10, 50⟩ 80 0).update ⟨30, 50⟩ 7 (fun _ => false)
        (fun _ => 1)).chunks
      = ((UsageAllocator.new ⟨10, 50⟩ 80 0).chunks.check (fun _ => false)).adjustBy 7
          ((30 : Int) - (UsageAllocator.new ⟨10, 50⟩ 80 0).available_bytes) (fun _ => 1)) := by
  have h := claim_C5 ⟨10, 50⟩ ⟨30, 50⟩ 80 0 7 (fun _ => false) (fun _ => 1)
    (UsageAllocator.new ⟨10, 50⟩ 80 0)
  exact ⟨h.1, h.2.1 (by decide), h.2.2.1, h.2.2.2⟩

/-- Claim C1, counterexample: with `usage = 6 > total = limit = 5` the
adapter's `total - usage` does not saturate at zero — the unchecked `usize`
subtraction wraps (or panics under overflow checks), so `available` is not
0 as the claim states. -/
theorem claim_C1_counterexample :
    (CgroupMemInfo.mem_info { usage := 6, limit := 5, unlimited := false } 100).available
      ≠ 0 := by
  decide

/-- Wrapped `usize` subtraction, characterised on in-range operands. -/
lemma wrap_sub (t u : Nat) (ht : t < USIZE) (hu : u < USIZE) :
    ((((t : Int) - (u : Int)) % ((USIZE : Nat) : Int)).toNat
      = if u ≤ t then t - u else USIZE - (u - t)) := by
  have h64 : ((USIZE : Nat) : Int) = 18446744073709551616 := by norm_num [USIZE]
  have h64n : USIZE = 18446744073709551616 := by norm_num [USIZE]
  rw [h64]
  rw [h64n] at ht hu ⊢
  split <;> omega

/-- Claim C1, amended: the adapter returns `total = limit` when the reader
says limited and `total =` the system meminfo total when unlimited, and
`available = total − usage` computed by unchecked `usize` subtraction: it
equals `total − usage` when `usage ≤ total`, but when `usage > total` it
wraps modulo `2^64` (release builds; overflow-checked builds panic) instead
of saturating at zero. -/
theorem claim_C1_amended (rd : CGroupMemory) (st : Nat)
    (hu : rd.usage < USIZE) (hl : rd.limit < USIZE) (hst : st < USIZE) :
    (CgroupMemInfo.mem_info rd st).total = (if rd.unlimited then st else rd.limit) ∧
    (rd.usage ≤ (if rd.unlimited then st else rd.limit) →
      (CgroupMemInfo.mem_info rd st).available
        = (if rd.unlimited then st else rd.limit) - rd.usage) ∧
    ((if rd.unlimited then st else rd.limit) < rd.usage →
      (CgroupMemInfo.mem_info rd st).available
        = USIZE - (rd.usage - (if rd.unlimited then st else rd.limit))) := by
  have hT : (if rd.unlimited then st else rd.limit) < USIZE := by
    split <;> assumption
  have hav : (CgroupMemInfo.mem_info rd st).available
      = (((((if rd.unlimited then st else rd.limit : Nat) : Int) - (rd.usage : Int))
          % ((USIZE : Nat) : Int)).toNat) := rfl
  refine ⟨rfl, ?_, ?_⟩
  · intro h
    rw [hav, wrap_sub _ _ hT hu, if_pos h]
  · intro h
    rw [hav, wrap_sub _ _ hT hu, if_neg (not_le.mpr h)]

/-- Witness for the amended C1: a limited reading with `usage ≤ total`
subtracts exactly; one with `usage > total` wraps to `2^64 − 1`. -/
theorem claim_C1_amended_witness :
    ((CgroupMemInfo.mem_info { usage := 3, limit := 10, unlimited := false } 100).available
        = 10 - 3) ∧
    ((CgroupMemInfo.mem_info { usage := 6, limit := 5, unlimited := false } 100).available
        = USIZE - (6 - 5)) := by
  constructor
  · exact (claim_C1_amended { usage := 3, limit := 10, unlimited := false } 100
      (by decide) (by decide) (by decide)).2.1 (by decide)
  · exact (claim_C1_amended { usage := 6, limit := 5, unlimited := false } 100
      (by decide) (by decide) (by decide)).2.2 (by decide)

/-- Claim C7: the cgroup-v2 reader walks upward from the join of the
controller path to `/sys/fs/cgroup`, returns the values read in the first
(deepest) visited directory containing both `memory.max` and
`memory.current`, reports controller-not-found exactly when no visited
directory contains both files, and a `memory.max` whose content trims to
the literal `max` yields `unlimited = true`. -/
theorem claim_C7 (fs : FS) (ctrl : List String) :
    (read_cgroup_v2_memory fs ctrl =
      (match (ancestors (cgroupRoot ++ ctrl)).find? (fun d => hasBoth fs d) with
        | some d => readMemAt fs d
        | none => Except.error CGroupError.CgroupControllerNotFound)) ∧
    (read_cgroup_v2_memory fs ctrl = Except.error CGroupError.CgroupControllerNotFound ↔
      ∀ d ∈ ancestors (cgroupRoot ++ ctrl), hasBoth fs d = false) ∧
    (∀ dir line, fs.files (dir ++ ["memory.max"]) = some line → rustTrim line = "max" →
      ∀ r, readMemAt fs dir = Except.ok r → r.unlimited = true) := by
  refine ⟨walkUp_eq_find fs _, ?_, ?_⟩
  · rw [read_cgroup_v2_memory, walkUp_eq_find]
    cases hf : (ancestors (cgroupRoot ++ ctrl)).find? (fun d => hasBoth fs d) with
    | some d =>
      simp only []
      constructor
      · intro h
        exact absurd h (readMemAt_ne_notFound fs d)
      · intro h
        have hp := List.find?_some hf
        have hd := List.mem_of_find?_eq_some hf
        rw [h d hd] at hp
        exact absurd hp (by simp)
    | none =>
      simp only []
      constructor
      · intro _ d hd
        have := List.find?_eq_none.mp hf d hd
        simpa using this
      · intro _
        trivial
  · intro dir line hline htrim r hr
    have hmax : read_file_usize fs (dir ++ ["memory.max"]) = Except.ok (0, true) := by
      simp only [read_file_usize, hline]
      rw [if_pos htrim]
    unfold readMemAt at hr
    rw [hmax] at hr
    cases hcur : read_file_usize fs (dir ++ ["memory.current"]) with
    | error e =>
      rw [hcur] at hr
      exact absurd hr (by simp)
    | ok w =>
      obtain ⟨u, b⟩ := w
      rw [hcur] at hr
      simp only [Except.ok.injEq] at hr
      rw [← hr]

/-- Witness for C7 on the concrete filesystem `fsEx`: the leaf `.../a/b`
lacks the memory files, its parent `.../a` has both, `memory.max` is
`max`, so the walk returns its values with `unlimited = true`. -/
theorem claim_C7_witness :
    read_cgroup_v2_memory fsEx ["a", "b"]
      = Except.ok { usage := 100, limit := 0, unlimited := true } := by
  have h := (claim_C7 fsEx ["a", "b"]).1
  rw [h]
  decide

end Memfill
